import Mathlib

/-!
# Verification of `download_prism.py` (brews/nastyprisms)

A shallow embedding, in Lean 4, of the PRISM daily-climate-data download
pipeline `src/download_prism.py`, together with theorems settling the
specification claims about it.

Modelling conventions:
* file contents are `List Nat` (byte sequences);
* a local file path is a `PathKey`: the containing directory plus the file
  name inside it (all files the script writes sit directly inside one
  temporary directory, so a two-level path model is faithful);
* the local filesystem `FS` is an association list from `PathKey` to
  contents; a write conses an entry at the front, so `fsRead` (first
  match) returns the latest write and the tail keeps the write history;
* Python `pathlib` name/stem/suffix semantics are reproduced exactly
  (a suffix exists only when the final component has a dot at position
  `i` with `0 < i < length - 1`);
* fallible Python code (raised exceptions) is embedded with `Except` or
  `Option`;
* external collaborators (fsspec, rioxarray, the retry library) are
  embedded from their documented contracts where the claims need them.
-/

set_option autoImplicit false

namespace DownloadPrism

/-! ## Path model (Python `pathlib`)

String library functions such as `String.splitOn` are implemented with
positional recursion that the kernel does not unfold, so the `pathlib`
operations are implemented here by structural recursion on `List Char`
(a `String` is definitionally its character list). -/

/-- Split a character list on a separator (like `str.split(sep)` for a
one-character separator). -/
def splitChar (sep : Char) : List Char → List (List Char)
  | [] => [[]]
  | c :: rest =>
    if c = sep then [] :: splitChar sep rest
    else
      match splitChar sep rest with
      | [] => [[c]]
      | h :: t => (c :: h) :: t

/-- Split a character list on `'/'` (like `str.split("/")`). -/
def splitSlash (cs : List Char) : List (List Char) := splitChar '/' cs

/-- Last element of a list of components, or `[]` for the empty list. -/
def lastComponent : List (List Char) → List Char
  | [] => []
  | [x] => x
  | _ :: y :: t => lastComponent (y :: t)

/-- Final component of a POSIX-style path (`pathlib.Path(s).name`),
ignoring empty components produced by repeated or trailing slashes. -/
def pathNameL (cs : List Char) : List Char :=
  lastComponent ((splitSlash cs).filter (· ≠ []))

/-- Index of the last `'.'` in a character list, if any. -/
def lastDotIdx : List Char → Option Nat
  | [] => none
  | c :: rest =>
    match lastDotIdx rest with
    | some i => some (i + 1)
    | none => if c = '.' then some 0 else none

/-- The `pathlib` suffix of a bare file name: the substring from the
last dot, provided that dot is neither the first nor the last
character. -/
def suffixL (cs : List Char) : List Char :=
  match lastDotIdx cs with
  | some i => if 0 < i ∧ i < cs.length - 1 then cs.drop i else []
  | none => []

/-- The `pathlib` stem of a bare file name: the name with its suffix
removed. -/
def stemL (cs : List Char) : List Char :=
  match lastDotIdx cs with
  | some i => if 0 < i ∧ i < cs.length - 1 then cs.take i else cs
  | none => cs

/-- Python `pathlib.Path(s).name`. -/
def pathName (s : String) : String := String.mk (pathNameL s.toList)

/-- Python `pathlib.Path(s).suffix`: the suffix of the final component. -/
def pathSuffix (s : String) : String := String.mk (suffixL (pathNameL s.toList))

/-- Python `pathlib.Path(s).stem`: the stem of the final component. -/
def pathStem (s : String) : String := String.mk (stemL (pathNameL s.toList))

/-! ## Filesystem model -/

/-- A local file path: directory plus file name within it. -/
structure PathKey where
  dir : String
  base : String
deriving DecidableEq, Repr

/-- The local filesystem: front-consed write history; the first entry for
a key is the file's current content. -/
abbrev FS := List (PathKey × List Nat)

/-- Model of `open(p, "wb").write(b)`: record content `b` at path `p`. -/
def fsWrite (fs : FS) (p : PathKey) (b : List Nat) : FS := (p, b) :: fs

/-- Current content of the file at `p`, if it exists. -/
def fsRead (fs : FS) (p : PathKey) : Option (List Nat) :=
  (fs.find? (fun e => e.1 == p)).map (·.2)

/-- A write of bytes `b` to path `p` happened at some point. -/
def wasWritten (fs : FS) (p : PathKey) (b : List Nat) : Prop := (p, b) ∈ fs

/-- Deleting a directory removes every file inside it
(`TemporaryDirectory` cleanup). -/
def removeDir (d : String) (fs : FS) : FS :=
  fs.filter (fun e => e.1.dir ≠ d)

/-! ## Archive members and extraction (`_dump_zippedbil`) -/

/-- One member of the downloaded zip archive, as yielded by
`fsspec.open_files("zip://*::...")`: its name inside the archive and the
bytes `fl.read()` returns. -/
structure Member where
  name : String
  bytes : List Nat
deriving DecidableEq, Repr

/-- The `p.suffix == ".bil"` test from the extraction loop. -/
def isBilMember (m : Member) : Bool := pathSuffix m.name == ".bil"

/-- Python `ZipBilFileError`: the zip archive did not have exactly one
`.bil` file.  The two constructors carry the data of the two distinct
messages the Python code raises. -/
inductive ZipBilFileError where
  | multipleBil (first second : PathKey)
  | noBil
deriving DecidableEq, Repr

/-- The `for fl in ofs:` loop of `_dump_zippedbil`: write each member to
`dumpdir` under its bare file name, tracking the `.bil` path seen so far;
raise on a second `.bil` member (after having written it). -/
def dumpLoop (dumpdir : String) :
    List Member → FS → Option PathKey → FS × Except ZipBilFileError (Option PathKey)
  | [], fs, bil_path => (fs, .ok bil_path)
  | m :: rest, fs, bil_path =>
    let outpath : PathKey := ⟨dumpdir, pathName m.name⟩
    let fs' := fsWrite fs outpath m.bytes
    if isBilMember m then
      match bil_path with
      | some bp => (fs', .error (.multipleBil bp outpath))
      | none => dumpLoop dumpdir rest fs' (some outpath)
    else
      dumpLoop dumpdir rest fs' bil_path

/-- Model of `_dump_zippedbil(ofs, dumpdir)`: decompress the archive
members into `dumpdir` and return the `.bil` path, raising
`ZipBilFileError` when the archive does not contain exactly one `.bil`
member.  The returned `FS` is the filesystem state when the function
returns or raises. -/
def dump_zippedbil (ofs : List Member) (dumpdir : String) (fs : FS) :
    FS × Except ZipBilFileError PathKey :=
  match dumpLoop dumpdir ofs fs none with
  | (fs', .error e) => (fs', .error e)
  | (fs', .ok none) => (fs', .error .noBil)
  | (fs', .ok (some p)) => (fs', .ok p)

/-- The filesystem entry the loop writes for member `m`. -/
def memberEntry (d : String) (m : Member) : PathKey × List Nat :=
  (⟨d, pathName m.name⟩, m.bytes)

/-- Writing a list of members in order. -/
def writeAll (d : String) (fs : FS) : List Member → FS
  | [] => fs
  | m :: rest => writeAll d (fsWrite fs ⟨d, pathName m.name⟩ m.bytes) rest

/-! ## Dates and `datetime.strptime(_, "%Y%m%d")` (`_datetime_from_prism_flname`)

CPython's `_strptime` compiles `"%Y%m%d"` to the regex
`(?P<Y>\d\d\d\d)(?P<m>1[0-2]|0[1-9]|[1-9])(?P<d>3[01]|[12]\d|0[1-9]|[1-9])`,
matches it with ordered alternation and backtracking, raises `ValueError`
when the match does not consume the whole string, and then `datetime`
validates the day against the month length.  All of that is reproduced
here. -/

/-- A `datetime.datetime` date (the time-of-day part is always zero). -/
structure Date where
  year : Nat
  month : Nat
  day : Nat
deriving DecidableEq, Repr

def isLeapYear (y : Nat) : Bool :=
  (y % 4 == 0 && y % 100 != 0) || (y % 400 == 0)

def daysInMonth (y m : Nat) : Nat :=
  if m = 2 then (if isLeapYear y then 29 else 28)
  else if m = 4 ∨ m = 6 ∨ m = 9 ∨ m = 11 then 30
  else 31

/-- The decimal digit a character denotes, if any. -/
def charDigit? (c : Char) : Option Nat :=
  if 48 ≤ c.toNat ∧ c.toNat ≤ 57 then some (c.toNat - 48) else none

/-- Whether `c` is a digit in the range `[lo, hi]` (the regex character
classes). -/
def digitIn (c : Char) (lo hi : Nat) : Bool :=
  match charDigit? c with
  | some v => lo ≤ v && v ≤ hi
  | none => false

/-- Digit value of a digit character (junk default elsewhere). -/
def dv (c : Char) : Nat := (charDigit? c).getD 0

/-- Regex `(?P<Y>\d\d\d\d)`: exactly four digits. -/
def matchY : List Char → Option (Nat × List Char)
  | a :: b :: c :: d :: rest =>
    if digitIn a 0 9 && digitIn b 0 9 && digitIn c 0 9 && digitIn d 0 9 then
      some (1000 * dv a + 100 * dv b + 10 * dv c + dv d, rest)
    else none
  | _ => none

/-- All matches of `(?P<m>1[0-2]|0[1-9]|[1-9])` at the head of the input,
in the regex's preference order. -/
def mAltList : List Char → List (Nat × List Char)
  | a :: b :: rest =>
    (if digitIn a 1 1 && digitIn b 0 2 then [(10 + dv b, rest)] else [])
      ++ (if digitIn a 0 0 && digitIn b 1 9 then [(dv b, rest)] else [])
      ++ (if digitIn a 1 9 then [(dv a, b :: rest)] else [])
  | [a] => if digitIn a 1 9 then [(dv a, [])] else []
  | [] => []

/-- First match of `(?P<d>3[01]|[12]\d|0[1-9]|[1-9])` at the head of the
input (nothing follows the day group, so its first alternative to match
is final). -/
def matchD : List Char → Option (Nat × List Char)
  | a :: b :: rest =>
    if digitIn a 3 3 && digitIn b 0 1 then some (30 + dv b, rest)
    else if digitIn a 1 2 && digitIn b 0 9 then some (10 * dv a + dv b, rest)
    else if digitIn a 0 0 && digitIn b 1 9 then some (dv b, rest)
    else if digitIn a 1 9 then some (dv a, b :: rest)
    else none
  | [a] => if digitIn a 1 9 then some (dv a, []) else none
  | [] => none

/-- Month-then-day with backtracking: the first month alternative (in
preference order) whose remainder admits a day match wins. -/
def matchMD (cs : List Char) : Option (Nat × Nat × List Char) :=
  (mAltList cs).findSome? fun mc =>
    (matchD mc.2).map fun dc => (mc.1, dc.1, dc.2)

/-- Model of `datetime.strptime(s, "%Y%m%d")`: regex match,
full-consumption check, then `datetime(Y, m, d)` range validation
(`MINYEAR = 1`, day at most the month's length). -/
def strptime_Ymd (s : String) : Option Date :=
  match matchY s.toList with
  | none => none
  | some (y, rest) =>
    match matchMD rest with
    | none => none
    | some (m, d, rest2) =>
      if rest2 = [] ∧ 1 ≤ y ∧ d ≤ daysInMonth y m then some ⟨y, m, d⟩
      else none

/-- Model of `_datetime_from_prism_flname(p)`:
`datetime.strptime(p.stem.split("_")[-2], "%Y%m%d")`; `none` embeds the
uncaught `ValueError`/`IndexError`. -/
def datetime_from_prism_flname (p : String) : Option Date :=
  let toks := splitChar '_' (pathStem p).toList
  if 2 ≤ toks.length then
    strptime_Ymd (String.mk (toks.getD (toks.length - 2) []))
  else none

/-- The character for digit `n < 10`. -/
def digitChar (n : Nat) : Char := Char.ofNat (48 + n)

/-- Two-digit zero-padded decimal. -/
def pad2 (n : Nat) : List Char := [digitChar (n / 10 % 10), digitChar (n % 10)]

/-- Four-digit zero-padded decimal. -/
def pad4 (n : Nat) : List Char :=
  [digitChar (n / 1000 % 10), digitChar (n / 100 % 10),
    digitChar (n / 10 % 10), digitChar (n % 10)]

/-! ## The retry policy (`retry_call` wrapping `fs.get_file`)

The scope `unpacked_prismzip_bil` downloads with
`retry_call(fs.get_file, ..., exceptions=(TimeoutError,), tries=3,
delay=30, backoff=2)`.  The `retry` library loops while attempts remain:
a raised exception in `exceptions` decrements the budget, re-raises when
it hits zero, otherwise sleeps `delay` and doubles it; any other
exception propagates immediately.  A fetch attempt is abstracted as an
outcome per (1-based) attempt number. -/

/-- What one call of `fs.get_file` does. -/
inductive FetchOutcome where
  | ok
  | timeout
  | otherError
deriving DecidableEq, Repr

/-- How the retry wrapper can fail overall. -/
inductive FetchAbort where
  | timeoutRaised
  | otherRaised
deriving DecidableEq, Repr

/-- What an execution of `retry_call` did: number of attempts made, the
backoff sleeps performed (in order, seconds), and the outcome. -/
structure RetryTrace where
  attempts : Nat
  sleeps : List Nat
  result : Except FetchAbort Unit
deriving Repr

/-- Model of `retry.api.__retry_internal`: `tries` remaining attempts,
current `delay`; `attempt` numbers the next call to `f`. -/
def retryGo (f : Nat → FetchOutcome) : Nat → Nat → Nat → List Nat → RetryTrace
  | 0, _, attempt, sleeps => ⟨attempt - 1, sleeps.reverse, .ok ()⟩
  | t + 1, delay, attempt, sleeps =>
    match f attempt with
    | .ok => ⟨attempt, sleeps.reverse, .ok ()⟩
    | .otherError => ⟨attempt, sleeps.reverse, .error .otherRaised⟩
    | .timeout =>
      if t = 0 then ⟨attempt, sleeps.reverse, .error .timeoutRaised⟩
      else retryGo f t (delay * 2) (attempt + 1) (delay :: sleeps)

/-- Model of `retry_call(f, exceptions=(TimeoutError,), tries=3,
delay=30, backoff=2)`. -/
def retry_call (f : Nat → FetchOutcome) : RetryTrace := retryGo f 3 30 1 []

/-! ## The memoized URL enumerator (`get_prism_daily_urls`)

The function is wrapped in `functools.cache`, keyed on the call
arguments; the remote store's `fs.glob` is the external collaborator,
abstracted as a function from glob pattern to listing. -/

/-- The keyword arguments of `get_prism_daily_urls` (the `fs` handle is
fixed for a run). -/
structure PrismQuery where
  year : Nat
  varName : String
  stability : String
  scale : String
  version : String
deriving DecidableEq, Repr

/-- The `target_file_glob` pattern from the source. -/
def prism_glob_pattern (q : PrismQuery) : String :=
  "/daily/" ++ q.varName ++ "/" ++ toString q.year ++ "/PRISM_" ++ q.varName
    ++ "_" ++ q.stability ++ "_" ++ q.scale ++ q.version ++ "_"
    ++ toString q.year ++ "*_bil.zip"

/-- The process-lifetime memo table of `functools.cache`. -/
abbrev CacheTable := List (PrismQuery × List String)

/-- Model of `get_prism_daily_urls` with its cache made explicit:
returns the listing, the updated table, and how many remote `fs.glob`
queries this call issued (0 or 1). -/
def get_prism_daily_urls (glob : String → List String) (st : CacheTable)
    (q : PrismQuery) : List String × CacheTable × Nat :=
  match st.find? (fun e => e.1 == q) with
  | some e => (e.2, st, 0)
  | none =>
    let r := glob (prism_glob_pattern q)
    (r, (q, r) :: st, 1)

/-! ## The pipeline driver (`main`)

The driver enumerates URLs, then inside one run-scoped
`TemporaryDirectory` processes each URL sequentially (unpack → decode →
preprocess → write an intermediate NetCDF), then opens all intermediates
as one combined dataset and writes it to the output Zarr store — still
inside the `with`-block, so the scratch directory is deleted only on
block exit, which also runs when an exception propagates.  A run is
abstracted by the outcome of each day's processing and of the final
combine-and-write step; the observable behaviour is the ordered event
trace plus the run's result. -/

/-- Why one day's processing can fail (fetch retries exhausted,
malformed archive, filename date parse error). -/
inductive DayFailure where
  | fetchExhausted
  | malformedArchive
  | dateParse
deriving DecidableEq, Repr

/-- Observable events of one run of `main`. -/
inductive RunEv where
  | mkScratch
  | dayDone (i : Nat)
  | openCombined
  | zarrWritten
  | rmScratch
deriving DecidableEq, Repr

/-- How a run of `main` can abort (errors propagate uncaught). -/
inductive RunAbort where
  | day (e : DayFailure)
  | consolidation
deriving DecidableEq, Repr

/-- The `for url in all_urls:` loop: process days in order, stopping at
the first failure.  Returns the `dayDone` events emitted and the failure,
if any. -/
def processDays (i : Nat) : List (Except DayFailure Unit) →
    List RunEv × Option DayFailure
  | [] => ([], none)
  | .ok _ :: rest =>
    let r := processDays (i + 1) rest
    (RunEv.dayDone i :: r.1, r.2)
  | .error e :: _ => ([], some e)

/-- Model of `main`, abstracted over each day's outcome and the outcome
of the final combine-and-write: the event trace and the run result.  The
`TemporaryDirectory` block guarantees `rmScratch` on every exit path;
`ds.to_zarr(outpath)` runs inside the block, before its exit. -/
def mainRun (days : List (Except DayFailure Unit)) (consolidationOk : Bool) :
    List RunEv × Except RunAbort Unit :=
  let pd := processDays 0 days
  match pd.2 with
  | some e => (RunEv.mkScratch :: pd.1 ++ [RunEv.rmScratch], .error (.day e))
  | none =>
    if consolidationOk then
      (RunEv.mkScratch :: pd.1
        ++ [RunEv.openCombined, RunEv.zarrWritten, RunEv.rmScratch], .ok ())
    else
      (RunEv.mkScratch :: pd.1 ++ [RunEv.openCombined, RunEv.rmScratch],
        .error .consolidation)

/-! ## The unpack scope (`unpacked_prismzip_bil`)

The context manager creates a `TemporaryDirectory`, downloads the zip
into it with the retry wrapper, extracts with `_dump_zippedbil`, yields
the `.bil` path to the body, and on scope exit — normal or exceptional —
the `TemporaryDirectory` cleanup deletes the directory and its
contents. -/

/-- How the scope can exit. -/
inductive ScopeOutcome where
  | ok
  | fetchFailed (e : FetchAbort)
  | malformed (e : ZipBilFileError)
  | bodyRaised
deriving DecidableEq, Repr

/-- One full execution of the `unpacked_prismzip_bil` scope: the fetch
behaviour per attempt, the archive delivered on fetch success, the raw
zip bytes, and whether the body (the `with` block using the yielded
path) completes or raises.  Returns the final filesystem and the exit
kind. -/
def unpacked_prismzip_bil (url tmpdir : String) (fetch : Nat → FetchOutcome)
    (archive : List Member) (zipBytes : List Nat) (bodyOk : Bool) (fs0 : FS) :
    FS × ScopeOutcome :=
  match (retry_call fetch).result with
  | .error e => (removeDir tmpdir fs0, .fetchFailed e)
  | .ok _ =>
    match dump_zippedbil archive tmpdir
        (fsWrite fs0 ⟨tmpdir, pathName url⟩ zipBytes) with
    | (fs2, .error e) => (removeDir tmpdir fs2, .malformed e)
    | (fs2, .ok _) =>
      if bodyOk then (removeDir tmpdir fs2, .ok)
      else (removeDir tmpdir fs2, .bodyRaised)

/-! ## The raster normalizer (`preprocess_bil_dataarray`)

An `xarray.DataArray` is modelled by its dimension names (in order), its
coordinate variables (an association list from name to coordinate
values), and its attributes.  Coordinate values are exact rationals for
spatial axes, dates for the time axis, and a CRS string for the
`spatial_ref` scalar coordinate.  The rioxarray operations used by
`preprocess_bil_dataarray` are embedded from their documented contracts:
`rio.reproject` is an arbitrary frame transformation supplied by the
collaborator; `rio.clip_box` restricts the spatial coordinates to the
inclusive box; `drop`/`squeeze`/`rename`/`expand_dims`/`assign_coords`
are the xarray structural operations. -/

/-- A coordinate value. -/
inductive CoordVal where
  | num (q : Rat)
  | date (d : Date)
  | crs (s : String)
deriving DecidableEq, Repr

/-- First value for a key in an association list. -/
def alistFind {α : Type} (k : String) : List (String × α) → Option α
  | [] => none
  | e :: rest => if e.1 = k then some e.2 else alistFind k rest

/-- The labelled-array model. -/
structure DataArray where
  dims : List String
  coords : List (String × List CoordVal)
  attrs : List (String × String)
deriving DecidableEq, Repr

def getCoord (da : DataArray) (k : String) : Option (List CoordVal) :=
  alistFind k da.coords

def getAttr (da : DataArray) (k : String) : Option String :=
  alistFind k da.attrs

/-- Replace the coordinate values stored under `k`. -/
def setCoord (cs : List (String × List CoordVal)) (k : String)
    (v : List CoordVal) : List (String × List CoordVal) :=
  cs.map (fun e => if e.1 = k then (k, v) else e)

/-- Keep the numeric coordinates inside `[lo, hi]` (inclusive). -/
def filterRange (lo hi : Rat) (vs : List CoordVal) : List CoordVal :=
  vs.filter (fun v => match v with
    | .num q => decide (lo ≤ q ∧ q ≤ hi)
    | _ => false)

/-- Model of `da.rio.clip_box(minx, miny, maxx, maxy)`: needs spatial
`x`/`y` coordinates; restricts them to the inclusive box. -/
def clip_box (minx miny maxx maxy : Rat) (da : DataArray) : Option DataArray :=
  match getCoord da "x", getCoord da "y" with
  | some xs, some ys =>
    some { da with coords :=
      (setCoord (setCoord da.coords "x" (filterRange minx maxx xs))
        "y" (filterRange miny maxy ys)) }
  | _, _ => none

/-- Model of `da.drop(k)`: removes the coordinate variable, an error if
absent. -/
def drop_coord (k : String) (da : DataArray) : Option DataArray :=
  if (alistFind k da.coords).isSome then
    some { da with coords := da.coords.filter (fun e => e.1 ≠ k) }
  else none

/-- Length of a dimension, from its coordinate variable. -/
def dimLen (da : DataArray) (d : String) : Nat :=
  match getCoord da d with
  | some vs => vs.length
  | none => 1

/-- Model of `da.squeeze(drop=True)`: remove every length-1 dimension
together with its coordinate variable. -/
def squeeze_drop (da : DataArray) : DataArray :=
  { dims := da.dims.filter (fun d => dimLen da d != 1),
    coords := da.coords.filter
      (fun e => !(da.dims.contains e.1 && (dimLen da e.1 == 1))),
    attrs := da.attrs }

/-- Model of `da.rename({"x": "lon", "y": "lat"})`: an error unless both
names are present as a dimension or coordinate. -/
def rename_xy (da : DataArray) : Option DataArray :=
  if (da.dims.contains "x" || (alistFind "x" da.coords).isSome)
      && (da.dims.contains "y" || (alistFind "y" da.coords).isSome) then
    some { dims := da.dims.map
             (fun d => if d = "x" then "lon" else if d = "y" then "lat" else d),
           coords := da.coords.map
             (fun e => ((if e.1 = "x" then "lon"
               else if e.1 = "y" then "lat" else e.1), e.2)),
           attrs := da.attrs }
  else none

/-- Model of `da.expand_dims("time").assign_coords(time=("time", [t]))`:
prepend a fresh length-1 time dimension carrying `t`. -/
def add_time_dim (t : Date) (da : DataArray) : Option DataArray :=
  if da.dims.contains "time" then none
  else some { dims := "time" :: da.dims,
              coords := ("time", [CoordVal.date t]) :: da.coords,
              attrs := da.attrs }

/-- Model of `preprocess_bil_dataarray(da, minlat, minlon, maxlat,
maxlon, project_epsg)`.  The collaborator's reprojection is the function
parameter `R` (applied exactly when `project_epsg` is non-null, with the
`"EPSG:{code}"` string the code builds); then clip to the box, drop the
CRS coordinate, squeeze singleton dimensions, rename the spatial axes to
`lon`/`lat`, and stamp the time parsed from the `source_url`
attribute. -/
def preprocess_bil_dataarray (R : String → DataArray → DataArray)
    (da : DataArray) (minlat minlon maxlat maxlon : Rat)
    (project_epsg : Option String) : Option DataArray :=
  let da1 := match project_epsg with
    | some e => R ("EPSG:" ++ e) da
    | none => da
  (clip_box minlon minlat maxlon maxlat da1).bind fun da2 =>
  (drop_coord "spatial_ref" da2).bind fun da3 =>
  (rename_xy (squeeze_drop da3)).bind fun da5 =>
  (getAttr da5 "source_url").bind fun src =>
  (datetime_from_prism_flname src).bind fun t =>
  add_time_dim t da5

/-! ## Basic filesystem lemmas -/
theorem fsRead_fsWrite (fs : FS) (p q : PathKey) (b : List Nat) :
    fsRead (fsWrite fs p b) q = if q = p then some b else fsRead fs q := by
  rcases eq_or_ne q p with rfl | h
  · simp [fsRead, fsWrite, List.find?]
  · have hpq : (p == q) = false := beq_eq_false_iff_ne.2 (Ne.symm h)
    simp [fsRead, fsWrite, List.find?, hpq, h]

theorem fsRead_removeDir (d : String) (fs : FS) (p : PathKey) (h : p.dir = d) :
    fsRead (removeDir d fs) p = none := by
  unfold fsRead removeDir
  rw [List.find?_eq_none.2, Option.map_none']
  intro e he
  have hkeep := List.of_mem_filter he
  simp only [ne_eq, decide_not, Bool.not_eq_true', decide_eq_false_iff_not] at hkeep
  simp only [beq_iff_eq]
  intro hep
  exact hkeep (hep ▸ h)

theorem writeAll_eq (d : String) (fs : FS) (ms : List Member) :
    writeAll d fs ms = (ms.map (memberEntry d)).reverse ++ fs := by
  induction ms generalizing fs with
  | nil => simp [writeAll]
  | cons m rest ih => simp [writeAll, ih, fsWrite, memberEntry]

theorem writeAll_append (d : String) (fs : FS) (l₁ l₂ : List Member) :
    writeAll d fs (l₁ ++ l₂) = writeAll d (writeAll d fs l₁) l₂ := by
  induction l₁ generalizing fs with
  | nil => rfl
  | cons m rest ih => simp [writeAll, ih]

theorem fsRead_writeAll_of_ne (d : String) (fs : FS) (ms : List Member) (q : PathKey)
    (h : ∀ m ∈ ms, (⟨d, pathName m.name⟩ : PathKey) ≠ q) :
    fsRead (writeAll d fs ms) q = fsRead fs q := by
  induction ms generalizing fs with
  | nil => rfl
  | cons m rest ih =>
    rw [writeAll, ih _ (fun x hx => h x (List.mem_cons_of_mem m hx)), fsRead_fsWrite]
    rw [if_neg (fun hq => h m (List.mem_cons_self m rest) hq.symm)]

/-- Members whose names flatten to the same base name agree on the `.bil`
test used by the loop (`pathlib` computes the suffix from the final
component of the name). -/
theorem isBilMember_congr (m b : Member) (h : pathName m.name = pathName b.name) :
    isBilMember m = isBilMember b := by
  unfold pathName at h
  have h' : pathNameL m.name.toList = pathNameL b.name.toList := by
    injection h
  unfold isBilMember pathSuffix
  rw [h']

theorem dumpLoop_no_bil (d : String) (ms : List Member) (fs : FS) (b? : Option PathKey)
    (h : ∀ m ∈ ms, isBilMember m = false) :
    dumpLoop d ms fs b? = (writeAll d fs ms, .ok b?) := by
  induction ms generalizing fs with
  | nil => rfl
  | cons m rest ih =>
    have hm : isBilMember m = false := h m (List.mem_cons_self m rest)
    simp only [dumpLoop, hm, Bool.false_eq_true, if_false, writeAll]
    exact ih _ (fun x hx => h x (List.mem_cons_of_mem m hx))

theorem dumpLoop_some_error (d : String) (ms : List Member) (fs : FS) (bp : PathKey)
    (h : ∃ m ∈ ms, isBilMember m = true) :
    ∃ fs' e, dumpLoop d ms fs (some bp) = (fs', .error e) := by
  induction ms generalizing fs with
  | nil => simp at h
  | cons m rest ih =>
    by_cases hm : isBilMember m = true
    · exact ⟨fsWrite fs ⟨d, pathName m.name⟩ m.bytes,
        .multipleBil bp ⟨d, pathName m.name⟩, by simp [dumpLoop, hm]⟩
    · obtain ⟨x, hx, hxb⟩ := h
      rcases List.mem_cons.1 hx with rfl | hx'
      · exact absurd hxb hm
      · have hm' : isBilMember m = false := eq_false_of_ne_true hm
        obtain ⟨fs', e, hfe⟩ :=
          ih (fsWrite fs ⟨d, pathName m.name⟩ m.bytes) ⟨x, hx', hxb⟩
        refine ⟨fs', e, ?_⟩
        simp only [dumpLoop, hm', Bool.false_eq_true, if_false]
        exact hfe

theorem dumpLoop_until_first_bil (d : String) (pre : List Member) (b : Member)
    (post : List Member) (fs : FS)
    (hpre : ∀ m ∈ pre, isBilMember m = false) (hb : isBilMember b = true) :
    dumpLoop d (pre ++ b :: post) fs none =
      dumpLoop d post
        (fsWrite (writeAll d fs pre) ⟨d, pathName b.name⟩ b.bytes)
        (some ⟨d, pathName b.name⟩) := by
  induction pre generalizing fs with
  | nil => simp [dumpLoop, hb, writeAll]
  | cons m rest ih =>
    have hm : isBilMember m = false := hpre m (List.mem_cons_self m rest)
    simp only [List.cons_append, dumpLoop, hm, Bool.false_eq_true, if_false, writeAll]
    exact ih _ (fun x hx => hpre x (List.mem_cons_of_mem m hx))

/-- Helper: a list with a positive `countP` splits at its first hit. -/
theorem exists_split_first {α : Type} (p : α → Bool) (l : List α) (h : 0 < l.countP p) :
    ∃ pre b post, l = pre ++ b :: post ∧ p b = true ∧ ∀ x ∈ pre, p x = false := by
  induction l with
  | nil => simp at h
  | cons a t ih =>
    by_cases ha : p a = true
    · exact ⟨[], a, t, rfl, ha, by simp⟩
    · have ht : 0 < t.countP p := by
        simpa [List.countP_cons, ha] using h
      obtain ⟨pre, b, post, rfl, hb, hpre⟩ := ih ht
      refine ⟨a :: pre, b, post, rfl, hb, ?_⟩
      intro x hx
      rcases List.mem_cons.1 hx with rfl | hx'
      · exact eq_false_of_ne_true ha
      · exact hpre x hx'

theorem dump_zippedbil_noBil (ms : List Member) (d : String) (fs : FS)
    (h : ∀ m ∈ ms, isBilMember m = false) :
    dump_zippedbil ms d fs = (writeAll d fs ms, .error .noBil) := by
  unfold dump_zippedbil
  rw [dumpLoop_no_bil d ms fs none h]

theorem dump_zippedbil_success (d : String) (fs : FS) (pre post : List Member) (b : Member)
    (hpre : ∀ m ∈ pre, isBilMember m = false) (hb : isBilMember b = true)
    (hpost : ∀ m ∈ post, isBilMember m = false) :
    dump_zippedbil (pre ++ b :: post) d fs =
      (writeAll d fs (pre ++ b :: post), .ok ⟨d, pathName b.name⟩) := by
  unfold dump_zippedbil
  rw [dumpLoop_until_first_bil d pre b post fs hpre hb,
    dumpLoop_no_bil d post _ _ hpost, writeAll_append]
  simp [writeAll]

theorem dump_zippedbil_error_of_many (ms : List Member) (d : String) (fs : FS)
    (h : 2 ≤ ms.countP isBilMember) :
    ∃ fs' e, dump_zippedbil ms d fs = (fs', Except.error e) := by
  obtain ⟨pre, b, post, rfl, hb, hpre⟩ :=
    exists_split_first isBilMember ms (by omega)
  have hpostpos : 0 < post.countP isBilMember := by
    have hsplit : (pre ++ b :: post).countP isBilMember
        = pre.countP isBilMember + (post.countP isBilMember + 1) := by
      rw [List.countP_append, List.countP_cons, hb]; simp
    have hpre0 : pre.countP isBilMember = 0 :=
      List.countP_eq_zero.2 (fun a ha => by simp [hpre a ha])
    rw [hsplit] at h
    omega
  obtain ⟨x, hx, hxb⟩ := List.countP_pos_iff.1 hpostpos
  obtain ⟨fs', e, hfe⟩ :=
    dumpLoop_some_error d post
      (fsWrite (writeAll d fs pre) ⟨d, pathName b.name⟩ b.bytes)
      ⟨d, pathName b.name⟩ ⟨x, hx, hxb⟩
  refine ⟨fs', e, ?_⟩
  unfold dump_zippedbil
  rw [dumpLoop_until_first_bil d pre b post fs hpre hb, hfe]

theorem dump_zippedbil_one_bil (ms : List Member) (d : String) (fs : FS)
    (h1 : ms.countP isBilMember = 1) :
    ∃ b, ms.filter isBilMember = [b] ∧
      dump_zippedbil ms d fs = (writeAll d fs ms, .ok ⟨d, pathName b.name⟩) ∧
      fsRead (writeAll d fs ms) ⟨d, pathName b.name⟩ = some b.bytes := by
  obtain ⟨pre, b, post, rfl, hb, hpre⟩ :=
    exists_split_first isBilMember ms (by omega)
  have hpre0 : pre.countP isBilMember = 0 :=
    List.countP_eq_zero.2 (fun a ha => by simp [hpre a ha])
  have hsplit : (pre ++ b :: post).countP isBilMember
      = pre.countP isBilMember + (post.countP isBilMember + 1) := by
    rw [List.countP_append, List.countP_cons, hb]; simp
  have hpost0 : post.countP isBilMember = 0 := by
    rw [hsplit, hpre0] at h1; omega
  have hpost : ∀ m ∈ post, isBilMember m = false := fun m hm =>
    eq_false_of_ne_true (List.countP_eq_zero.1 hpost0 m hm)
  refine ⟨b, ?_, dump_zippedbil_success d fs pre post b hpre hb hpost, ?_⟩
  · rw [List.filter_append, List.filter_cons]
    have e1 : pre.filter isBilMember = [] :=
      List.filter_eq_nil_iff.2 (fun a ha => by simp [hpre a ha])
    have e2 : post.filter isBilMember = [] :=
      List.filter_eq_nil_iff.2 (fun a ha => by simp [hpost a ha])
    simp [e1, e2, hb]
  · rw [writeAll_append]
    have hne : ∀ m ∈ post,
        (⟨d, pathName m.name⟩ : PathKey) ≠ ⟨d, pathName b.name⟩ := by
      intro m hm heqk
      have hname : pathName m.name = pathName b.name := by
        injection heqk
      have hcongr := isBilMember_congr m b hname
      rw [hpost m hm, hb] at hcongr
      exact Bool.false_ne_true hcongr
    calc fsRead (writeAll d (writeAll d fs pre) (b :: post)) ⟨d, pathName b.name⟩
        = fsRead (writeAll d
            (fsWrite (writeAll d fs pre) ⟨d, pathName b.name⟩ b.bytes) post)
            ⟨d, pathName b.name⟩ := rfl
      _ = fsRead (fsWrite (writeAll d fs pre) ⟨d, pathName b.name⟩ b.bytes)
            ⟨d, pathName b.name⟩ := fsRead_writeAll_of_ne d _ post _ hne
      _ = some b.bytes := by rw [fsRead_fsWrite, if_pos rfl]

theorem dump_zippedbil_error_of_ne_one (ms : List Member) (d : String) (fs : FS)
    (h : ms.countP isBilMember ≠ 1) :
    ∃ fs' e, dump_zippedbil ms d fs = (fs', Except.error e) := by
  rcases Nat.lt_or_ge (ms.countP isBilMember) 1 with h0 | hge
  · have h0' : ms.countP isBilMember = 0 := Nat.lt_one_iff.1 h0
    have hall : ∀ m ∈ ms, isBilMember m = false := fun m hm =>
      eq_false_of_ne_true (List.countP_eq_zero.1 h0' m hm)
    exact ⟨writeAll d fs ms, .noBil, dump_zippedbil_noBil ms d fs hall⟩
  · exact dump_zippedbil_error_of_many ms d fs (by omega)

/-! ## Claim theorems for the Archive Unpacker core -/
/-- C1: for every extraction of an archive, `_dump_zippedbil` succeeds
and returns the path of the extracted raster member if and only if the
archive contains exactly one member with the `.bil` extension; if zero or
more than one such members are found it raises `ZipBilFileError`, and on
success the returned path is a file whose content equals that member's
bytes. -/
theorem C1_unpack_exactly_one_bil (ms : List Member) (d : String) (fs : FS) :
    ((∃ fs' p, dump_zippedbil ms d fs = (fs', .ok p)) ↔
        ms.countP isBilMember = 1)
    ∧ (∀ fs' p, dump_zippedbil ms d fs = (fs', .ok p) →
        ∃ b, ms.filter isBilMember = [b] ∧ p = ⟨d, pathName b.name⟩ ∧
          fsRead fs' p = some b.bytes)
    ∧ (ms.countP isBilMember ≠ 1 →
        ∃ fs' e, dump_zippedbil ms d fs = (fs', Except.error e)) := by
  refine ⟨⟨?_, ?_⟩, ?_, ?_⟩
  · rintro ⟨fs', p, heq⟩
    by_contra hne
    obtain ⟨fs'', e, heq'⟩ := dump_zippedbil_error_of_ne_one ms d fs hne
    rw [heq] at heq'
    simp at heq'
  · intro h1
    obtain ⟨b, _, hdump, _⟩ := dump_zippedbil_one_bil ms d fs h1
    exact ⟨_, _, hdump⟩
  · intro fs' p heq
    have h1 : ms.countP isBilMember = 1 := by
      by_contra hne
      obtain ⟨fs'', e, heq'⟩ := dump_zippedbil_error_of_ne_one ms d fs hne
      rw [heq] at heq'
      simp at heq'
    obtain ⟨b, hfil, hdump, hread⟩ := dump_zippedbil_one_bil ms d fs h1
    rw [heq] at hdump
    obtain ⟨hfs, hp⟩ := Prod.mk.injEq .. ▸ hdump
    have hp' : p = ⟨d, pathName b.name⟩ := by
      cases hp; rfl
    subst hp'
    exact ⟨b, hfil, rfl, hfs ▸ hread⟩
  · exact dump_zippedbil_error_of_ne_one ms d fs

theorem mem_writeAll (d : String) (fs : FS) (ms : List Member) (m : Member) (hm : m ∈ ms) :
    wasWritten (writeAll d fs ms) ⟨d, pathName m.name⟩ m.bytes := by
  rw [writeAll_eq]
  unfold wasWritten
  apply List.mem_append_left
  rw [List.mem_reverse]
  exact List.mem_map.2 ⟨m, hm, rfl⟩

/-- When the archive has at most one `.bil` member the extraction loop
runs to completion, so the resulting filesystem is all members written in
order (whether the call then succeeds or raises the zero-`.bil` error). -/
theorem dump_zippedbil_fst_of_le_one (ms : List Member) (d : String) (fs : FS)
    (h : ms.countP isBilMember ≤ 1) :
    (dump_zippedbil ms d fs).1 = writeAll d fs ms := by
  rcases Nat.lt_or_ge (ms.countP isBilMember) 1 with h0 | hge
  · have h0' : ms.countP isBilMember = 0 := Nat.lt_one_iff.1 h0
    have hall : ∀ m ∈ ms, isBilMember m = false := fun m hm =>
      eq_false_of_ne_true (List.countP_eq_zero.1 h0' m hm)
    rw [dump_zippedbil_noBil ms d fs hall]
  · have h1 : ms.countP isBilMember = 1 := le_antisymm h hge
    obtain ⟨b, _, hdump, _⟩ := dump_zippedbil_one_bil ms d fs h1
    rw [hdump]

/-- Writing members in order: the last member whose name flattens to a
given base name determines the final content at that base name. -/
theorem fsRead_writeAll_last (d : String) (fs : FS) (l₁ l₂ : List Member) (mlast : Member)
    (hafter : ∀ m ∈ l₂, pathName m.name ≠ pathName mlast.name) :
    fsRead (writeAll d fs (l₁ ++ mlast :: l₂)) ⟨d, pathName mlast.name⟩
      = some mlast.bytes := by
  rw [writeAll_append]
  have hne : ∀ m ∈ l₂,
      (⟨d, pathName m.name⟩ : PathKey) ≠ ⟨d, pathName mlast.name⟩ := by
    intro m hm heqk
    exact hafter m hm (by injection heqk)
  calc fsRead (writeAll d (writeAll d fs l₁) (mlast :: l₂)) ⟨d, pathName mlast.name⟩
      = fsRead (writeAll d
          (fsWrite (writeAll d fs l₁) ⟨d, pathName mlast.name⟩ mlast.bytes) l₂)
          ⟨d, pathName mlast.name⟩ := rfl
    _ = fsRead (fsWrite (writeAll d fs l₁) ⟨d, pathName mlast.name⟩ mlast.bytes)
          ⟨d, pathName mlast.name⟩ := fsRead_writeAll_of_ne d _ l₂ _ hne
    _ = some mlast.bytes := by rw [fsRead_fsWrite, if_pos rfl]

/-- C9 amended: when the archive has at most one `.bil` member the
extraction loop writes every member byte-for-byte into the dump
directory, each stored under its flattened base name.  (As stated the
claim fails for archives with two or more `.bil` members: the loop raises
upon writing the second `.bil` member, so members after it are never
written — see the counterexample.) -/
theorem C9_extract_writes_every_member (ms : List Member) (d : String) (fs : FS)
    (h : ms.countP isBilMember ≤ 1) :
    ∀ m ∈ ms, wasWritten ((dump_zippedbil ms d fs).1) ⟨d, pathName m.name⟩ m.bytes := by
  intro m hm
  rw [dump_zippedbil_fst_of_le_one ms d fs h]
  exact mem_writeAll d fs ms m hm

/-- C9 counterexample to the claim as stated: in an archive whose
members are `a.bil`, `b.bil`, `c.txt` in that order, extraction stops
with `ZipBilFileError` upon writing the second `.bil`, so the member
`c.txt` is never written. -/
theorem C9_counterexample :
    ¬ (∀ m ∈ ([⟨"a.bil", [1]⟩, ⟨"b.bil", [2]⟩, ⟨"c.txt", [3]⟩] : List Member),
        wasWritten
          ((dump_zippedbil [⟨"a.bil", [1]⟩, ⟨"b.bil", [2]⟩, ⟨"c.txt", [3]⟩] "/tmp/t" []).1)
          ⟨"/tmp/t", pathName m.name⟩ m.bytes) := by
  intro h
  have h3 := h ⟨"c.txt", [3]⟩ (by decide)
  unfold wasWritten at h3
  revert h3
  decide

/-- C9 witness. -/
theorem C9_witness :
    (([⟨"x.bil", [1]⟩, ⟨"x.hdr", [2]⟩] : List Member).countP isBilMember ≤ 1)
    ∧ ∀ m ∈ ([⟨"x.bil", [1]⟩, ⟨"x.hdr", [2]⟩] : List Member),
        wasWritten ((dump_zippedbil [⟨"x.bil", [1]⟩, ⟨"x.hdr", [2]⟩] "/tmp/t" []).1)
          ⟨"/tmp/t", pathName m.name⟩ m.bytes :=
  ⟨by decide,
    C9_extract_writes_every_member [⟨"x.bil", [1]⟩, ⟨"x.hdr", [2]⟩] "/tmp/t" [] (by decide)⟩

/-- C10 amended: members whose names flatten to the same base name
are written to the same path, with the later member's bytes silently
overwriting the earlier member's — but the specific corruption scenario
claimed is impossible: any member sharing the raster member's flattened
base name necessarily carries the `.bil` suffix itself (the suffix is
computed from the flattened name), so such an archive has two `.bil`
members and extraction raises `ZipBilFileError` instead of returning a
path. -/
theorem C10_flatten_overwrite (d : String) (fs : FS) (l₁ l₂ : List Member) (mlast : Member)
    (hafter : ∀ m ∈ l₂, pathName m.name ≠ pathName mlast.name)
    (hcount : (l₁ ++ mlast :: l₂).countP isBilMember ≤ 1) :
    fsRead ((dump_zippedbil (l₁ ++ mlast :: l₂) d fs).1) ⟨d, pathName mlast.name⟩
        = some mlast.bytes
    ∧ (∀ m b : Member, isBilMember b = true →
        pathName m.name = pathName b.name → isBilMember m = true) := by
  constructor
  · rw [dump_zippedbil_fst_of_le_one _ d fs hcount]
    exact fsRead_writeAll_last d fs l₁ l₂ mlast hafter
  · intro m b hb hname
    rw [isBilMember_congr m b hname, hb]

/-- C10 counterexample to the claim as stated: in an archive with
members `a/x.bil` then `b/x.bil` — a second member, distinct from the
raster member, flattening to the raster member's base name — no path is
returned at all: the colliding member itself has the `.bil` suffix, so
extraction raises the multiple-`.bil` error instead of returning a path
holding the later member's bytes. -/
theorem C10_counterexample :
    pathName "b/x.bil" = pathName "a/x.bil"
    ∧ (dump_zippedbil [⟨"a/x.bil", [1]⟩, ⟨"b/x.bil", [2]⟩] "/tmp/t" []).2
        = .error (.multipleBil ⟨"/tmp/t", "x.bil"⟩ ⟨"/tmp/t", "x.bil"⟩)
    ∧ (dump_zippedbil [⟨"a/x.bil", [1]⟩, ⟨"b/x.bil", [2]⟩] "/tmp/t" []).2
        ≠ .ok ⟨"/tmp/t", "x.bil"⟩ := by
  refine ⟨rfl, rfl, ?_⟩
  intro h
  exact Except.noConfusion h

/-- C10 witness: a later `readme.txt` member in a different archive
directory overwrites the earlier one at the flattened path. -/
theorem C10_witness :
    (∀ m ∈ ([] : List Member), pathName m.name ≠ pathName (⟨"b/readme.txt", [6]⟩ : Member).name)
    ∧ ((([⟨"x.bil", [1]⟩, ⟨"a/readme.txt", [5]⟩] : List Member)
          ++ (⟨"b/readme.txt", [6]⟩ : Member) :: []).countP isBilMember ≤ 1)
    ∧ (fsRead ((dump_zippedbil
          (([⟨"x.bil", [1]⟩, ⟨"a/readme.txt", [5]⟩] : List Member)
            ++ (⟨"b/readme.txt", [6]⟩ : Member) :: [])
          "/tmp/t" []).1)
        ⟨"/tmp/t", pathName (⟨"b/readme.txt", [6]⟩ : Member).name⟩
        = some [6]
      ∧ (∀ m b : Member, isBilMember b = true →
          pathName m.name = pathName b.name → isBilMember m = true)) :=
  ⟨by decide, by decide,
    C10_flatten_overwrite "/tmp/t" []
      ([⟨"x.bil", [1]⟩, ⟨"a/readme.txt", [5]⟩] : List Member) ([] : List Member)
      (⟨"b/readme.txt", [6]⟩ : Member) (by decide) (by decide)⟩

theorem strptime_Ymd_rejects_month_13 : strptime_Ymd "20051301" = none := rfl

theorem strptime_Ymd_short_day : strptime_Ymd "2005063" = some ⟨2005, 6, 3⟩ := rfl

theorem strptime_Ymd_rejects_feb_29_2005 : strptime_Ymd "20050229" = none := rfl

theorem strptime_Ymd_accepts_feb_29_2004 : strptime_Ymd "20040229" = some ⟨2004, 2, 29⟩ := rfl

theorem strptime_Ymd_rejects_garbage : strptime_Ymd "garbage1" = none := rfl

theorem charDigit?_digitChar : ∀ k, k < 10 → charDigit? (digitChar k) = some k := by
  decide

theorem digitIn_digitChar (k lo hi : Nat) (hk : k < 10) :
    digitIn (digitChar k) lo hi = (decide (lo ≤ k) && decide (k ≤ hi)) := by
  unfold digitIn
  rw [charDigit?_digitChar k hk]

theorem dv_digitChar (k : Nat) (hk : k < 10) : dv (digitChar k) = k := by
  unfold dv
  rw [charDigit?_digitChar k hk]
  rfl

theorem daysInMonth_le (y m : Nat) : daysInMonth y m ≤ 31 := by
  unfold daysInMonth
  split
  · split <;> omega
  · split <;> omega

theorem matchD_pad2 (d : Nat) (h1 : 1 ≤ d) (h2 : d ≤ 31) :
    matchD (pad2 d) = some (d, []) := by
  rcases Nat.lt_or_ge d 10 with h10 | h10
  · have e1 : d / 10 % 10 = 0 := by omega
    have e2 : d % 10 = d := by omega
    simp only [pad2, matchD, e1, e2]
    rw [digitIn_digitChar _ 3 3 (by omega), digitIn_digitChar _ 0 1 (by omega),
      digitIn_digitChar _ 1 2 (by omega), digitIn_digitChar _ 0 9 (by omega),
      digitIn_digitChar _ 0 0 (by omega), digitIn_digitChar _ 1 9 (by omega),
      dv_digitChar _ (by omega)]
    rw [if_neg (by simp only [Bool.and_eq_true, decide_eq_true_eq]; omega),
      if_neg (by simp only [Bool.and_eq_true, decide_eq_true_eq]; omega),
      if_pos (by simp only [Bool.and_eq_true, decide_eq_true_eq]; omega)]
  · rcases Nat.lt_or_ge d 30 with h30 | h30
    · have e1 : d / 10 % 10 = d / 10 := by omega
      have e2 : 10 * (d / 10) + d % 10 = d := by omega
      have e3 : 1 ≤ d / 10 := by omega
      have e4 : d / 10 ≤ 2 := by omega
      simp only [pad2, matchD, e1]
      rw [digitIn_digitChar _ 3 3 (by omega), digitIn_digitChar _ 0 1 (by omega),
        digitIn_digitChar _ 1 2 (by omega), digitIn_digitChar _ 0 9 (by omega),
        dv_digitChar _ (by omega), dv_digitChar _ (by omega)]
      rw [if_neg (by simp only [Bool.and_eq_true, decide_eq_true_eq]; omega),
        if_pos (by simp only [Bool.and_eq_true, decide_eq_true_eq]; omega), e2]
    · have e1 : d / 10 % 10 = 3 := by omega
      have e2 : 30 + d % 10 = d := by omega
      simp only [pad2, matchD, e1]
      rw [digitIn_digitChar _ 3 3 (by omega), digitIn_digitChar _ 0 1 (by omega),
        dv_digitChar _ (by omega)]
      rw [if_pos (by simp only [Bool.and_eq_true, decide_eq_true_eq]; omega), e2]

theorem matchMD_pads (m d : Nat) (hm1 : 1 ≤ m) (hm2 : m ≤ 12)
    (hd1 : 1 ≤ d) (hd2 : d ≤ 31) :
    matchMD (pad2 m ++ pad2 d) = some (m, d, []) := by
  have hD := matchD_pad2 d hd1 hd2
  rcases Nat.lt_or_ge m 10 with h10 | h10
  · have e1 : m / 10 % 10 = 0 := by omega
    have e2 : m % 10 = m := by omega
    simp only [pad2, matchMD, mAltList, e1, e2, List.cons_append, List.nil_append]
    rw [digitIn_digitChar _ 1 1 (by omega), digitIn_digitChar _ 0 2 (by omega),
      digitIn_digitChar _ 0 0 (by omega), digitIn_digitChar _ 1 9 (by omega),
      digitIn_digitChar _ 1 9 (by omega), dv_digitChar _ (by omega)]
    rw [if_neg (by simp only [Bool.and_eq_true, decide_eq_true_eq]; omega),
      if_pos (by simp only [Bool.and_eq_true, decide_eq_true_eq]; omega),
      if_neg (by decide)]
    simp only [pad2] at hD
    simp [List.findSome?_cons, hD]
  · have e1 : m / 10 % 10 = 1 := by omega
    have e2 : 10 + m % 10 = m := by omega
    have e3 : m % 10 ≤ 2 := by omega
    simp only [pad2, matchMD, mAltList, e1, List.cons_append, List.nil_append]
    rw [digitIn_digitChar _ 1 1 (by omega), digitIn_digitChar _ 0 2 (by omega),
      digitIn_digitChar _ 0 0 (by omega), digitIn_digitChar _ 1 9 (by omega),
      digitIn_digitChar _ 1 9 (by omega), dv_digitChar _ (by omega),
      dv_digitChar _ (by omega)]
    rw [if_pos (by simp only [Bool.and_eq_true, decide_eq_true_eq]; omega),
      if_neg (by simp only [Bool.and_eq_true, decide_eq_true_eq]; omega),
      if_pos (by decide), e2]
    simp only [pad2] at hD
    simp [List.findSome?_cons, hD]

theorem matchY_pad4 (y : Nat) (h : y ≤ 9999) (rest : List Char) :
    matchY (pad4 y ++ rest) = some (y, rest) := by
  have h1 : y / 1000 % 10 < 10 := Nat.mod_lt _ (by norm_num)
  have h2 : y / 100 % 10 < 10 := Nat.mod_lt _ (by norm_num)
  have h3 : y / 10 % 10 < 10 := Nat.mod_lt _ (by norm_num)
  have h4 : y % 10 < 10 := Nat.mod_lt _ (by norm_num)
  simp only [pad4, matchY, List.cons_append, List.nil_append]
  rw [digitIn_digitChar _ 0 9 h1, digitIn_digitChar _ 0 9 h2,
    digitIn_digitChar _ 0 9 h3, digitIn_digitChar _ 0 9 h4,
    if_pos (by simp only [Bool.and_eq_true, decide_eq_true_eq]; omega),
    dv_digitChar _ h1, dv_digitChar _ h2, dv_digitChar _ h3, dv_digitChar _ h4]
  have : 1000 * (y / 1000 % 10) + 100 * (y / 100 % 10) + 10 * (y / 10 % 10) + y % 10 = y := by
    omega
  rw [this]

/-- Parsing a well-formed zero-padded `YYYYMMDD` token recovers the date. -/
theorem strptime_Ymd_format (y m d : Nat) (hy1 : 1 ≤ y) (hy2 : y ≤ 9999)
    (hm1 : 1 ≤ m) (hm2 : m ≤ 12) (hd1 : 1 ≤ d) (hd2 : d ≤ daysInMonth y m) :
    strptime_Ymd (String.mk (pad4 y ++ pad2 m ++ pad2 d)) = some ⟨y, m, d⟩ := by
  have hd31 : d ≤ 31 := le_trans hd2 (daysInMonth_le y m)
  have hlist : (String.mk (pad4 y ++ pad2 m ++ pad2 d)).toList
      = pad4 y ++ (pad2 m ++ pad2 d) := by
    show pad4 y ++ pad2 m ++ pad2 d = _
    rw [List.append_assoc]
  simp only [strptime_Ymd, hlist, matchY_pad4 y hy2,
    matchMD_pads m d hm1 hm2 hd1 hd31]
  simp [hy1, hd2]

/-- C6: the date extracted by `_datetime_from_prism_flname` equals
the 8-digit `YYYYMMDD` value of the second-to-last underscore-delimited
token of the filename stem; in particular
`PRISM_tmean_stable_4kmD2_20050615_bil.zip` yields 2005-06-15; and a
filename whose token in that position is not parseable yields the parse
error (embedded as `none`), which the code propagates uncaught. -/
theorem C6_filename_date_token (p : String) (y m d : Nat)
    (hlen : 2 ≤ (splitChar '_' (pathStem p).toList).length)
    (htok : (splitChar '_' (pathStem p).toList).getD
        ((splitChar '_' (pathStem p).toList).length - 2) []
      = pad4 y ++ pad2 m ++ pad2 d)
    (hy1 : 1 ≤ y) (hy2 : y ≤ 9999) (hm1 : 1 ≤ m) (hm2 : m ≤ 12)
    (hd1 : 1 ≤ d) (hd2 : d ≤ daysInMonth y m) :
    datetime_from_prism_flname p = some ⟨y, m, d⟩
    ∧ datetime_from_prism_flname "PRISM_tmean_stable_4kmD2_20050615_bil.zip"
        = some ⟨2005, 6, 15⟩
    ∧ (∀ q : String,
        strptime_Ymd (String.mk ((splitChar '_' (pathStem q).toList).getD
          ((splitChar '_' (pathStem q).toList).length - 2) [])) = none →
        datetime_from_prism_flname q = none) := by
  refine ⟨?_, rfl, ?_⟩
  · simp only [datetime_from_prism_flname]
    rw [if_pos hlen, htok]
    exact strptime_Ymd_format y m d hy1 hy2 hm1 hm2 hd1 hd2
  · intro q hq
    simp only [datetime_from_prism_flname]
    by_cases hl : 2 ≤ (splitChar '_' (pathStem q).toList).length
    · rw [if_pos hl]
      exact hq
    · rw [if_neg hl]

/-- C6 witness: the spec's own example filename. -/
theorem C6_witness :
    datetime_from_prism_flname "PRISM_tmean_stable_4kmD2_20050615_bil.zip"
      = some ⟨2005, 6, 15⟩ :=
  (C6_filename_date_token "PRISM_tmean_stable_4kmD2_20050615_bil.zip" 2005 6 15
    (by decide) (by decide) (by decide) (by decide) (by decide) (by decide)
    (by decide) (by decide)).1

theorem retry_call_eq (f : Nat → FetchOutcome) : retry_call f =
    match f 1 with
    | .ok => ⟨1, [], .ok ()⟩
    | .otherError => ⟨1, [], .error .otherRaised⟩
    | .timeout =>
      match f 2 with
      | .ok => ⟨2, [30], .ok ()⟩
      | .otherError => ⟨2, [30], .error .otherRaised⟩
      | .timeout =>
        match f 3 with
        | .ok => ⟨3, [30, 60], .ok ()⟩
        | .otherError => ⟨3, [30, 60], .error .otherRaised⟩
        | .timeout => ⟨3, [30, 60], .error .timeoutRaised⟩ := by
  rcases h1 : f 1 <;> rcases h2 : f 2 <;> rcases h3 : f 3 <;>
    simp [retry_call, retryGo, h1, h2, h3]

/-- C3: at most 3 download attempts; a retry happens only after a
timeout (so non-timeout errors are never retried and abort at once); the
backoff sleeps are 30 s before the first retry and 60 s before the
second; two timeouts followed by a success give overall success with
exactly 2 retries and cumulative sleep 30 + 60; only a third timeout
surfaces the timeout as fatal. -/
theorem C3_retry_policy (f : Nat → FetchOutcome) :
    ((retry_call f).attempts ≤ 3)
    ∧ (∀ k, 1 ≤ k → k < (retry_call f).attempts → f k = .timeout)
    ∧ ((retry_call f).sleeps = List.take ((retry_call f).attempts - 1) [30, 60])
    ∧ (f 1 = .otherError → retry_call f = ⟨1, [], .error .otherRaised⟩)
    ∧ (f 1 = .timeout → f 2 = .otherError → retry_call f = ⟨2, [30], .error .otherRaised⟩)
    ∧ (f 1 = .timeout → f 2 = .timeout → f 3 = .ok →
        retry_call f = ⟨3, [30, 60], .ok ()⟩ ∧ (retry_call f).sleeps.sum = 30 + 60)
    ∧ (f 1 = .timeout → f 2 = .timeout → f 3 = .timeout →
        retry_call f = ⟨3, [30, 60], .error .timeoutRaised⟩) := by
  rw [retry_call_eq f]
  rcases h1 : f 1 <;> rcases h2 : f 2 <;> rcases h3 : f 3 <;>
    refine ⟨by simp, ?_, by simp, by simp_all, by simp_all, by simp_all, by simp_all⟩ <;>
      (intro k hk1 hk2; simp at hk2;
       have hk : k = 1 ∨ k = 2 := by omega
       rcases hk with rfl | rfl <;> simp_all)

/-- C3 witness: the two-timeouts-then-success scenario. -/
theorem C3_witness :
    retry_call (fun k => if k ≤ 2 then .timeout else .ok) = ⟨3, [30, 60], .ok ()⟩
    ∧ (retry_call (fun k => if k ≤ 2 then .timeout else .ok)).sleeps.sum = 30 + 60 :=
  (C3_retry_policy (fun k => if k ≤ 2 then .timeout else .ok)).2.2.2.2.2.1
    (by decide) (by decide) (by decide)

/-- C7: starting from the fresh process cache, a first call with `q`
issues exactly one remote glob query; a second call with the same `q`
issues none and returns the first call's cached result unchanged (so the
pair of identical calls issues exactly one query); a call with any
differing parameter tuple `q'` issues a new query. -/
theorem C7_enumerator_memoization (glob : String → List String)
    (q q' : PrismQuery) (hne : q' ≠ q) :
    (get_prism_daily_urls glob [] q).2.2 = 1
    ∧ (get_prism_daily_urls glob (get_prism_daily_urls glob [] q).2.1 q).2.2 = 0
    ∧ (get_prism_daily_urls glob (get_prism_daily_urls glob [] q).2.1 q).1
        = (get_prism_daily_urls glob [] q).1
    ∧ (get_prism_daily_urls glob (get_prism_daily_urls glob [] q).2.1 q).2.1
        = (get_prism_daily_urls glob [] q).2.1
    ∧ (get_prism_daily_urls glob (get_prism_daily_urls glob [] q).2.1 q').2.2 = 1 := by
  have hqq : (q == q) = true := beq_self_eq_true q
  have hqq' : (q == q') = false := beq_eq_false_iff_ne.2 (fun h => hne h.symm)
  refine ⟨rfl, ?_, ?_, ?_, ?_⟩ <;>
    simp [get_prism_daily_urls, List.find?, hqq, hqq']

/-- C7 witness: two concrete queries differing only in the year. -/
theorem C7_witness :
    (get_prism_daily_urls (fun _ => ["u"]) [] ⟨2005, "tmean", "stable", "4km", "D2"⟩).2.2 = 1
    ∧ (get_prism_daily_urls (fun _ => ["u"])
        (get_prism_daily_urls (fun _ => ["u"]) [] ⟨2005, "tmean", "stable", "4km", "D2"⟩).2.1
        ⟨2005, "tmean", "stable", "4km", "D2"⟩).2.2 = 0
    ∧ (get_prism_daily_urls (fun _ => ["u"])
        (get_prism_daily_urls (fun _ => ["u"]) [] ⟨2005, "tmean", "stable", "4km", "D2"⟩).2.1
        ⟨2005, "tmean", "stable", "4km", "D2"⟩).1
        = (get_prism_daily_urls (fun _ => ["u"]) [] ⟨2005, "tmean", "stable", "4km", "D2"⟩).1
    ∧ (get_prism_daily_urls (fun _ => ["u"])
        (get_prism_daily_urls (fun _ => ["u"]) [] ⟨2005, "tmean", "stable", "4km", "D2"⟩).2.1
        ⟨2005, "tmean", "stable", "4km", "D2"⟩).2.1
        = (get_prism_daily_urls (fun _ => ["u"]) [] ⟨2005, "tmean", "stable", "4km", "D2"⟩).2.1
    ∧ (get_prism_daily_urls (fun _ => ["u"])
        (get_prism_daily_urls (fun _ => ["u"]) [] ⟨2005, "tmean", "stable", "4km", "D2"⟩).2.1
        ⟨2006, "tmean", "stable", "4km", "D2"⟩).2.2 = 1 :=
  C7_enumerator_memoization (fun _ => ["u"]) ⟨2005, "tmean", "stable", "4km", "D2"⟩
    ⟨2006, "tmean", "stable", "4km", "D2"⟩ (by decide)

theorem processDays_events (ds : List (Except DayFailure Unit)) :
    ∀ i, ∀ e ∈ (processDays i ds).1, ∃ k, e = RunEv.dayDone k := by
  induction ds with
  | nil => intro i e he; simp [processDays] at he
  | cons d rest ih =>
    intro i e he
    cases d with
    | ok u =>
      simp only [processDays] at he
      rcases List.mem_cons.1 he with rfl | he'
      · exact ⟨i, rfl⟩
      · exact ih (i + 1) e he'
    | error e' => simp [processDays] at he

theorem processDays_none_iff (ds : List (Except DayFailure Unit)) :
    ∀ i, (processDays i ds).2 = none ↔ ∀ d ∈ ds, d = Except.ok () := by
  induction ds with
  | nil => intro i; simp [processDays]
  | cons d rest ih =>
    intro i
    cases d with
    | ok u =>
      simp only [processDays, List.mem_cons]
      constructor
      · intro h x hx
        rcases hx with rfl | hx'
        · rfl
        · exact ((ih (i + 1)).1 h) x hx'
      · intro h
        exact (ih (i + 1)).2 (fun x hx => h x (Or.inr hx))
    | error e' =>
      simp [processDays]

theorem processDays_mem_dayDone (ds : List (Except DayFailure Unit)) :
    ∀ i k, k < ds.length → (∀ d ∈ ds, d = Except.ok ()) →
      RunEv.dayDone (i + k) ∈ (processDays i ds).1 := by
  induction ds with
  | nil => intro i k hk _; simp at hk
  | cons d rest ih =>
    intro i k hk hall
    have hd : d = Except.ok () := hall d (List.mem_cons_self d rest)
    subst hd
    simp only [processDays, List.mem_cons]
    cases k with
    | zero => exact Or.inl (by rw [Nat.add_zero])
    | succ k' =>
      have : RunEv.dayDone ((i + 1) + k') ∈ (processDays (i + 1) rest).1 :=
        ih (i + 1) k' (by simpa using hk)
          (fun x hx => hall x (List.mem_cons_of_mem _ hx))
      have harith : (i + 1) + k' = i + (k' + 1) := by omega
      exact Or.inr (harith ▸ this)

/-- Any element of a `main` trace with tail `tail` is the scratch-dir
creation, a per-day intermediate write, or part of `tail`. -/
theorem mem_trace_cases (days : List (Except DayFailure Unit)) (i : Nat)
    (tail : List RunEv) (x : RunEv)
    (hmem : x ∈ RunEv.mkScratch :: (processDays i days).1 ++ tail) :
    x = RunEv.mkScratch ∨ (∃ k, x = RunEv.dayDone k) ∨ x ∈ tail := by
  rcases List.mem_cons.1 hmem with h | h
  · exact Or.inl h
  · rcases List.mem_append.1 h with h' | h'
    · exact Or.inr (Or.inl (processDays_events days i x h'))
    · exact Or.inr (Or.inr h')

/-- C2: in every execution of the driver the deletion of the
run-scoped scratch directory is the single final event of the run — it
happens exactly once, after everything else; whenever the consolidated
write occurs it therefore completes strictly before the scratch cleanup
begins, and in every fully successful run the write does occur before
the cleanup. -/
theorem C2_write_completes_before_scratch_cleanup
    (days : List (Except DayFailure Unit)) (consolidationOk : Bool) :
    ∃ pre, (mainRun days consolidationOk).1 = pre ++ [RunEv.rmScratch]
      ∧ RunEv.rmScratch ∉ pre
      ∧ (RunEv.zarrWritten ∈ (mainRun days consolidationOk).1 →
          RunEv.zarrWritten ∈ pre)
      ∧ ((∀ d ∈ days, d = Except.ok ()) → consolidationOk = true →
          RunEv.zarrWritten ∈ pre) := by
  cases hpd : (processDays 0 days).2 with
  | some e =>
    refine ⟨RunEv.mkScratch :: (processDays 0 days).1, ?_, ?_, ?_, ?_⟩
    · simp [mainRun, hpd]
    · intro hmem
      have hmem' : RunEv.rmScratch ∈
          RunEv.mkScratch :: (processDays 0 days).1 ++ ([] : List RunEv) := by
        simpa using hmem
      rcases mem_trace_cases days 0 [] _ hmem' with h | ⟨k, h⟩ | h
      · exact RunEv.noConfusion h
      · exact RunEv.noConfusion h
      · simp at h
    · intro hmem
      exfalso
      have hmem' : RunEv.zarrWritten ∈
          RunEv.mkScratch :: (processDays 0 days).1 ++ [RunEv.rmScratch] := by
        simpa [mainRun, hpd] using hmem
      rcases mem_trace_cases days 0 [RunEv.rmScratch] _ hmem' with h | ⟨k, h⟩ | h
      · exact RunEv.noConfusion h
      · exact RunEv.noConfusion h
      · simp at h
    · intro hall _
      exact absurd ((processDays_none_iff days 0).2 hall) (by simp [hpd])
  | none =>
    cases consolidationOk with
    | true =>
      refine ⟨RunEv.mkScratch :: (processDays 0 days).1
        ++ [RunEv.openCombined, RunEv.zarrWritten], ?_, ?_, ?_, ?_⟩
      · simp [mainRun, hpd]
      · intro hmem
        rcases mem_trace_cases days 0 [RunEv.openCombined, RunEv.zarrWritten] _
            hmem with h | ⟨k, h⟩ | h
        · exact RunEv.noConfusion h
        · exact RunEv.noConfusion h
        · simp at h
      · intro _
        simp
      · intro _ _
        simp
    | false =>
      refine ⟨RunEv.mkScratch :: (processDays 0 days).1
        ++ [RunEv.openCombined], ?_, ?_, ?_, ?_⟩
      · simp [mainRun, hpd]
      · intro hmem
        rcases mem_trace_cases days 0 [RunEv.openCombined] _ hmem
          with h | ⟨k, h⟩ | h
        · exact RunEv.noConfusion h
        · exact RunEv.noConfusion h
        · simp at h
      · intro hmem
        exfalso
        have hmem' : RunEv.zarrWritten ∈ RunEv.mkScratch :: (processDays 0 days).1
            ++ [RunEv.openCombined, RunEv.rmScratch] := by
          simpa [mainRun, hpd] using hmem
        rcases mem_trace_cases days 0 [RunEv.openCombined, RunEv.rmScratch] _
            hmem' with h | ⟨k, h⟩ | h
        · exact RunEv.noConfusion h
        · exact RunEv.noConfusion h
        · simp at h
      · intro _ hck
        exact absurd hck (by simp)

theorem processDays_some (ds : List (Except DayFailure Unit)) :
    ∀ i, (∃ e, Except.error e ∈ ds) → ∃ e, (processDays i ds).2 = some e := by
  induction ds with
  | nil => intro i h; simp at h
  | cons d rest ih =>
    intro i h
    obtain ⟨e, he⟩ := h
    cases d with
    | error e' => exact ⟨e', by simp [processDays]⟩
    | ok u =>
      have hrest : Except.error e ∈ rest := by
        rcases List.mem_cons.1 he with h' | h'
        · exact absurd h' (by simp)
        · exact h'
      obtain ⟨e2, h2⟩ := ih (i + 1) ⟨e, hrest⟩
      exact ⟨e2, by simp [processDays, h2]⟩

/-- C8: if processing of any URL fails, the run aborts with that
class of error propagated and neither the combine step nor the
consolidated write ever happens; conversely the consolidated write
happens only in runs where every day succeeded, after all the per-day
intermediate writes. -/
theorem C8_day_failure_aborts_run (days : List (Except DayFailure Unit))
    (consolidationOk : Bool) :
    ((∃ e, Except.error e ∈ days) →
        (∃ e, (mainRun days consolidationOk).2 = Except.error (RunAbort.day e))
        ∧ RunEv.zarrWritten ∉ (mainRun days consolidationOk).1
        ∧ RunEv.openCombined ∉ (mainRun days consolidationOk).1)
    ∧ (RunEv.zarrWritten ∈ (mainRun days consolidationOk).1 →
        (∀ d ∈ days, d = Except.ok ())
        ∧ (mainRun days consolidationOk).1
            = RunEv.mkScratch :: (processDays 0 days).1
              ++ [RunEv.openCombined, RunEv.zarrWritten, RunEv.rmScratch]
        ∧ ∀ i < days.length, RunEv.dayDone i ∈ (processDays 0 days).1) := by
  constructor
  · intro h
    obtain ⟨e', hpd⟩ := processDays_some days 0 h
    refine ⟨⟨e', by simp [mainRun, hpd]⟩, ?_, ?_⟩
    · intro hmem
      have hmem' : RunEv.zarrWritten ∈
          RunEv.mkScratch :: (processDays 0 days).1 ++ [RunEv.rmScratch] := by
        simpa [mainRun, hpd] using hmem
      rcases mem_trace_cases days 0 [RunEv.rmScratch] _ hmem' with h' | ⟨k, h'⟩ | h'
      · exact RunEv.noConfusion h'
      · exact RunEv.noConfusion h'
      · simp at h'
    · intro hmem
      have hmem' : RunEv.openCombined ∈
          RunEv.mkScratch :: (processDays 0 days).1 ++ [RunEv.rmScratch] := by
        simpa [mainRun, hpd] using hmem
      rcases mem_trace_cases days 0 [RunEv.rmScratch] _ hmem' with h' | ⟨k, h'⟩ | h'
      · exact RunEv.noConfusion h'
      · exact RunEv.noConfusion h'
      · simp at h'
  · intro hmem
    cases hpd : (processDays 0 days).2 with
    | some e =>
      exfalso
      have hmem' : RunEv.zarrWritten ∈
          RunEv.mkScratch :: (processDays 0 days).1 ++ [RunEv.rmScratch] := by
        simpa [mainRun, hpd] using hmem
      rcases mem_trace_cases days 0 [RunEv.rmScratch] _ hmem' with h' | ⟨k, h'⟩ | h'
      · exact RunEv.noConfusion h'
      · exact RunEv.noConfusion h'
      · simp at h'
    | none =>
      cases consolidationOk with
      | false =>
        exfalso
        have hmem' : RunEv.zarrWritten ∈
            RunEv.mkScratch :: (processDays 0 days).1
              ++ [RunEv.openCombined, RunEv.rmScratch] := by
          simpa [mainRun, hpd] using hmem
        rcases mem_trace_cases days 0 [RunEv.openCombined, RunEv.rmScratch] _
            hmem' with h' | ⟨k, h'⟩ | h'
        · exact RunEv.noConfusion h'
        · exact RunEv.noConfusion h'
        · simp at h'
      | true =>
        have hall := (processDays_none_iff days 0).1 hpd
        refine ⟨hall, by simp [mainRun, hpd], ?_⟩
        intro i hi
        have := processDays_mem_dayDone days 0 i hi hall
        simpa using this

/-- C8 witness: a run with a malformed second day aborts with a day
error and never opens or writes the consolidated store. -/
theorem C8_witness :
    (∃ e, (mainRun [Except.ok (), Except.error DayFailure.malformedArchive] true).2
        = Except.error (RunAbort.day e))
    ∧ RunEv.zarrWritten ∉ (mainRun [Except.ok (), Except.error DayFailure.malformedArchive] true).1
    ∧ RunEv.openCombined ∉ (mainRun [Except.ok (), Except.error DayFailure.malformedArchive] true).1 :=
  (C8_day_failure_aborts_run [Except.ok (), Except.error DayFailure.malformedArchive] true).1
    ⟨DayFailure.malformedArchive, by simp⟩

/-- C2 witness. -/
theorem C2_witness :
    ∃ pre, (mainRun [(Except.ok () : Except DayFailure Unit)] true).1
        = pre ++ [RunEv.rmScratch]
      ∧ RunEv.rmScratch ∉ pre
      ∧ (RunEv.zarrWritten ∈ (mainRun [(Except.ok () : Except DayFailure Unit)] true).1 →
          RunEv.zarrWritten ∈ pre)
      ∧ ((∀ d ∈ [(Except.ok () : Except DayFailure Unit)], d = Except.ok ()) → true = true →
          RunEv.zarrWritten ∈ pre) :=
  C2_write_completes_before_scratch_cleanup [Except.ok ()] true

/-- C4: on every exit path of the unpack scope — normal completion,
malformed-archive error, fetch failure after exhausted retries, or an
exception raised in the body — the ephemeral extraction directory and
every file in it are gone: no path inside `tmpdir` remains readable. -/
theorem C4_ephemeral_dir_deleted_on_every_exit (url tmpdir : String)
    (fetch : Nat → FetchOutcome) (archive : List Member) (zipBytes : List Nat)
    (bodyOk : Bool) (fs0 : FS) (base : String) :
    fsRead ((unpacked_prismzip_bil url tmpdir fetch archive zipBytes bodyOk fs0).1)
      ⟨tmpdir, base⟩ = none := by
  unfold unpacked_prismzip_bil
  cases hres : (retry_call fetch).result with
  | error e => exact fsRead_removeDir tmpdir fs0 ⟨tmpdir, base⟩ rfl
  | ok u =>
    rcases hdump : dump_zippedbil archive tmpdir
        (fsWrite fs0 ⟨tmpdir, pathName url⟩ zipBytes) with ⟨fs2, res⟩
    cases res with
    | error e => exact fsRead_removeDir tmpdir fs2 ⟨tmpdir, base⟩ rfl
    | ok p =>
      cases bodyOk
      · exact fsRead_removeDir tmpdir fs2 ⟨tmpdir, base⟩ rfl
      · exact fsRead_removeDir tmpdir fs2 ⟨tmpdir, base⟩ rfl

theorem pathName_url_example :
    pathName "/daily/tmean/2005/PRISM_tmean_stable_4kmD2_20050615_bil.zip"
      = "PRISM_tmean_stable_4kmD2_20050615_bil.zip" := rfl

theorem pathSuffix_nested : pathSuffix "a/x.bil" = ".bil" := rfl

theorem pathSuffix_hidden_file : pathSuffix ".bil" = "" := rfl

theorem pathStem_example :
    pathStem "PRISM_tmean_stable_4kmD2_20050615_bil.zip"
      = "PRISM_tmean_stable_4kmD2_20050615_bil" := rfl

/-- C5: for every valid decoded raster frame, the normalizer applies
the collaborator reprojection exactly when `project_epsg` is non-null
(with the `"EPSG:{code}"` string) and consumes the frame unchanged when
it is null; the output's spatial coordinates are exactly the input's
coordinates restricted to the bounding box (hence contained in it), the
spatial axes are renamed to the canonical `lon`/`lat` pair, the
`spatial_ref` coordinate and the singleton `band` dimension are gone,
and the output carries exactly one time value, parsed from the source
URL. -/
theorem C5_preprocess_normalizes (R : String → DataArray → DataArray)
    (da : DataArray) (minlat minlon maxlat maxlon : Rat)
    (project_epsg : Option String)
    (b c : CoordVal) (xs ys : List CoordVal) (attrs : List (String × String))
    (src : String) (t : Date)
    (hda1 : (match project_epsg with
        | some e => R ("EPSG:" ++ e) da
        | none => da)
      = ⟨["band", "y", "x"],
          [("band", [b]), ("x", xs), ("y", ys), ("spatial_ref", [c])], attrs⟩)
    (hx2 : 2 ≤ (filterRange minlon maxlon xs).length)
    (hy2 : 2 ≤ (filterRange minlat maxlat ys).length)
    (hsrc : alistFind "source_url" attrs = some src)
    (ht : datetime_from_prism_flname src = some t) :
    preprocess_bil_dataarray R da minlat minlon maxlat maxlon project_epsg
      = some ⟨["time", "lat", "lon"],
          [("time", [CoordVal.date t]),
            ("lon", filterRange minlon maxlon xs),
            ("lat", filterRange minlat maxlat ys)], attrs⟩
    ∧ (∀ v ∈ filterRange minlon maxlon xs,
        ∃ q, v = CoordVal.num q ∧ minlon ≤ q ∧ q ≤ maxlon)
    ∧ (∀ v ∈ filterRange minlat maxlat ys,
        ∃ q, v = CoordVal.num q ∧ minlat ≤ q ∧ q ≤ maxlat)
    ∧ (project_epsg = none →
        da = ⟨["band", "y", "x"],
          [("band", [b]), ("x", xs), ("y", ys), ("spatial_ref", [c])], attrs⟩)
    ∧ (∀ e, project_epsg = some e →
        R ("EPSG:" ++ e) da = ⟨["band", "y", "x"],
          [("band", [b]), ("x", xs), ("y", ys), ("spatial_ref", [c])], attrs⟩) := by
  have hx1 : (filterRange minlon maxlon xs).length ≠ 1 := by omega
  have hy1 : (filterRange minlat maxlat ys).length ≠ 1 := by omega
  have hclip : clip_box minlon minlat maxlon maxlat
      (⟨["band", "y", "x"],
        [("band", [b]), ("x", xs), ("y", ys), ("spatial_ref", [c])],
        attrs⟩ : DataArray)
      = some ⟨["band", "y", "x"],
          [("band", [b]), ("x", filterRange minlon maxlon xs),
            ("y", filterRange minlat maxlat ys), ("spatial_ref", [c])], attrs⟩ := by
    simp [clip_box, getCoord, alistFind, setCoord]
  have hdrop : drop_coord "spatial_ref"
      (⟨["band", "y", "x"],
        [("band", [b]), ("x", filterRange minlon maxlon xs),
          ("y", filterRange minlat maxlat ys), ("spatial_ref", [c])],
        attrs⟩ : DataArray)
      = some ⟨["band", "y", "x"],
          [("band", [b]), ("x", filterRange minlon maxlon xs),
            ("y", filterRange minlat maxlat ys)], attrs⟩ := by
    simp [drop_coord, alistFind]
  have hsq : squeeze_drop
      (⟨["band", "y", "x"],
        [("band", [b]), ("x", filterRange minlon maxlon xs),
          ("y", filterRange minlat maxlat ys)], attrs⟩ : DataArray)
      = ⟨["y", "x"],
          [("x", filterRange minlon maxlon xs),
            ("y", filterRange minlat maxlat ys)], attrs⟩ := by
    simp [squeeze_drop, dimLen, getCoord, alistFind, hx1, hy1]
  have hren : rename_xy
      (⟨["y", "x"],
        [("x", filterRange minlon maxlon xs),
          ("y", filterRange minlat maxlat ys)], attrs⟩ : DataArray)
      = some ⟨["lat", "lon"],
          [("lon", filterRange minlon maxlon xs),
            ("lat", filterRange minlat maxlat ys)], attrs⟩ := by
    simp [rename_xy, alistFind]
  have htime : add_time_dim t
      (⟨["lat", "lon"],
        [("lon", filterRange minlon maxlon xs),
          ("lat", filterRange minlat maxlat ys)], attrs⟩ : DataArray)
      = some ⟨["time", "lat", "lon"],
          [("time", [CoordVal.date t]),
            ("lon", filterRange minlon maxlon xs),
            ("lat", filterRange minlat maxlat ys)], attrs⟩ := by
    simp [add_time_dim]
  refine ⟨?_, ?_, ?_, ?_, ?_⟩
  · simp only [preprocess_bil_dataarray, hda1, hclip, Option.some_bind, hdrop,
      hsq, hren, getAttr, hsrc, ht, htime]
  · intro v hv
    obtain ⟨hvmem, hcond⟩ := List.mem_filter.1 hv
    cases v with
    | num q => exact ⟨q, rfl, by simpa using hcond⟩
    | date d => simp at hcond
    | crs s => simp at hcond
  · intro v hv
    obtain ⟨hvmem, hcond⟩ := List.mem_filter.1 hv
    cases v with
    | num q => exact ⟨q, rfl, by simpa using hcond⟩
    | date d => simp at hcond
    | crs s => simp at hcond
  · intro hnone
    rw [hnone] at hda1
    exact hda1
  · intro e hsome
    rw [hsome] at hda1
    exact hda1

/-- C5 witness: a concrete raw frame over California, no
reprojection. -/
theorem C5_witness :
    preprocess_bil_dataarray (fun _ a => a)
      ⟨["band", "y", "x"],
        [("band", [CoordVal.num 1]),
          ("x", [CoordVal.num (-120), CoordVal.num (-115), CoordVal.num (-100)]),
          ("y", [CoordVal.num 33, CoordVal.num 40, CoordVal.num 45]),
          ("spatial_ref", [CoordVal.crs "NAD83"])],
        [("source_url",
          "/daily/tmean/2005/PRISM_tmean_stable_4kmD2_20050615_bil.zip")]⟩
      32 (-125) 43 (-114) none
      = some ⟨["time", "lat", "lon"],
          [("time", [CoordVal.date ⟨2005, 6, 15⟩]),
            ("lon", filterRange (-125) (-114)
              [CoordVal.num (-120), CoordVal.num (-115), CoordVal.num (-100)]),
            ("lat", filterRange 32 43
              [CoordVal.num 33, CoordVal.num 40, CoordVal.num 45])],
          [("source_url",
            "/daily/tmean/2005/PRISM_tmean_stable_4kmD2_20050615_bil.zip")]⟩ :=
  (C5_preprocess_normalizes (fun _ a => a)
    ⟨["band", "y", "x"],
      [("band", [CoordVal.num 1]),
        ("x", [CoordVal.num (-120), CoordVal.num (-115), CoordVal.num (-100)]),
        ("y", [CoordVal.num 33, CoordVal.num 40, CoordVal.num 45]),
        ("spatial_ref", [CoordVal.crs "NAD83"])],
      [("source_url",
        "/daily/tmean/2005/PRISM_tmean_stable_4kmD2_20050615_bil.zip")]⟩
    32 (-125) 43 (-114) none
    (CoordVal.num 1) (CoordVal.crs "NAD83")
    [CoordVal.num (-120), CoordVal.num (-115), CoordVal.num (-100)]
    [CoordVal.num 33, CoordVal.num 40, CoordVal.num 45]
    [("source_url",
      "/daily/tmean/2005/PRISM_tmean_stable_4kmD2_20050615_bil.zip")]
    "/daily/tmean/2005/PRISM_tmean_stable_4kmD2_20050615_bil.zip"
    ⟨2005, 6, 15⟩
    rfl (by decide) (by decide) rfl rfl).1

/-- C1 witness: a single-member archive holding just the raster. -/
theorem C1_witness :
    ((∃ fs' p, dump_zippedbil [⟨"w.bil", [9]⟩] "/t" [] = (fs', Except.ok p)) ↔
        ([⟨"w.bil", [9]⟩] : List Member).countP isBilMember = 1)
    ∧ (∀ fs' p, dump_zippedbil [⟨"w.bil", [9]⟩] "/t" [] = (fs', Except.ok p) →
        ∃ b, ([⟨"w.bil", [9]⟩] : List Member).filter isBilMember = [b]
          ∧ p = ⟨"/t", pathName b.name⟩ ∧ fsRead fs' p = some b.bytes)
    ∧ (([⟨"w.bil", [9]⟩] : List Member).countP isBilMember ≠ 1 →
        ∃ fs' e, dump_zippedbil [⟨"w.bil", [9]⟩] "/t" [] = (fs', Except.error e)) :=
  C1_unpack_exactly_one_bil [⟨"w.bil", [9]⟩] "/t" []

/-- C4 witness: a normal successful pass through the scope. -/
theorem C4_witness :
    fsRead ((unpacked_prismzip_bil "u.zip" "/tmp/s" (fun _ => FetchOutcome.ok)
      [⟨"r.bil", [1]⟩] [0] true []).1) ⟨"/tmp/s", "r.bil"⟩ = none :=
  C4_ephemeral_dir_deleted_on_every_exit "u.zip" "/tmp/s" (fun _ => FetchOutcome.ok)
    [⟨"r.bil", [1]⟩] [0] true [] "r.bil"


end DownloadPrism
